import Mathlib

/-!
Verification development for the execution-tracking and session-state layer of
a multi-agent content-creation pipeline (`utils/session_manager.py`).

The Python code is shallowly embedded: event payloads become an inductive
`JsonValue`, events become a structure mirroring the attributes the tracker
reads, and the tracking loop `run_agent_with_tracking` becomes a fold over a
finite list of events with an optional trailing stream failure.  Python
timestamps (floats used only as opaque ordered values) are modelled as `Int`;
Python dicts (insertion-ordered, unique keys) are modelled as association
lists.
-/

namespace GoogleAdkPoc

/-- Python values that can appear in a function-response payload: strings,
integers, booleans, `None`, lists and (insertion-ordered) dicts. -/
inductive JsonValue where
  | str (s : String)
  | num (n : Int)
  | bool (b : Bool)
  | null
  | arr (xs : List JsonValue)
  | obj (fields : List (String × JsonValue))

/-- Hex digit used by the JSON escaper (for control characters). -/
def hexDigit (n : Nat) : Char :=
  if n < 10 then Char.ofNat (48 + n) else Char.ofNat (87 + n)

/-- Escape one character the way Python json.dumps (ensure_ascii=False) does. -/
def jsonEscapeChar (c : Char) : String :=
  if c = '\x22' then "\\\x22"
  else if c = '\\' then "\\\\"
  else if c = '\n' then "\\n"
  else if c = '\t' then "\\t"
  else if c = '\r' then "\\r"
  else if c = '\x08' then "\\b"
  else if c = '\x0c' then "\\f"
  else if c.toNat < 32 then
    "\\u00" ++ String.singleton (hexDigit (c.toNat / 16)) ++ String.singleton (hexDigit (c.toNat % 16))
  else String.singleton c

/-- Escape a string the way Python json.dumps (ensure_ascii=False) does. -/
def jsonEscape (s : String) : String :=
  String.join (s.toList.map jsonEscapeChar)

mutual

/-- Python `json.dumps(v, ensure_ascii=False)` with the default separators
`", "` and `": "`. -/
def jsonDumps : JsonValue → String
  | JsonValue.str s => "\x22" ++ jsonEscape s ++ "\x22"
  | JsonValue.num n => toString n
  | JsonValue.bool b => if b then "true" else "false"
  | JsonValue.null => "null"
  | JsonValue.arr xs => "[" ++ jsonDumpsArr xs ++ "]"
  | JsonValue.obj fs => "\x7b" ++ jsonDumpsObj fs ++ "\x7d"

/-- Comma-separated serialization of a JSON array's elements. -/
def jsonDumpsArr : List JsonValue → String
  | [] => ""
  | [x] => jsonDumps x
  | x :: y :: rest => jsonDumps x ++ ", " ++ jsonDumpsArr (y :: rest)

/-- Comma-separated serialization of a JSON object's fields. -/
def jsonDumpsObj : List (String × JsonValue) → String
  | [] => ""
  | [(k, v)] => "\x22" ++ jsonEscape k ++ "\x22: " ++ jsonDumps v
  | (k, v) :: f :: rest =>
    "\x22" ++ jsonEscape k ++ "\x22: " ++ jsonDumps v ++ ", " ++ jsonDumpsObj (f :: rest)

end

/-- `google.genai.types.FunctionResponse` as read by the tracker: only the
`response` attribute matters; `none` models Python `None`. -/
structure FunctionResponse where
  response : Option JsonValue

/-- `google.genai.types.Part` as read by the tracker: an optional direct text
payload and an optional function-response payload. -/
structure Part where
  text : Option String := none
  function_response : Option FunctionResponse := none

/-- First part whose `text` attribute is truthy (present and non-empty),
mirroring the first loop of `_extract_text_from_event_parts`. -/
def firstText : List Part → Option String
  | [] => none
  | p :: rest =>
    match p.text with
    | some s => if s = "" then firstText rest else some s
    | none => firstText rest

/-- First part carrying a function_response whose `response` attribute is not
`None`, mirroring the second loop of `_extract_text_from_event_parts`. -/
def firstResp : List Part → Option JsonValue
  | [] => none
  | p :: rest =>
    match p.function_response with
    | some fr =>
      match fr.response with
      | some r => some r
      | none => firstResp rest
    | none => firstResp rest

/-- Python `str` on the primitives the extractor can hand to it (containers are
serialized by `jsonDumps` instead and never reach the primitive branches). -/
def pyStrOf (v : JsonValue) : String :=
  match v with
  | JsonValue.obj _ => jsonDumps v
  | JsonValue.arr _ => jsonDumps v
  | JsonValue.str s => s
  | JsonValue.num n => toString n
  | JsonValue.bool b => if b then "True" else "False"
  | JsonValue.null => "None"

/-- Embedding of the helper `_extract_text_from_event_parts` from
`run_agent_with_tracking`: prefer the first part with truthy direct text; else
unwrap the first function_response (`output` key, else `result` key, else the
raw payload), serializing dict/list values with json.dumps and coercing the
rest with `str`; else the empty string.  The argument is `event.content.parts`,
which may be Python `None` (`for p in parts or []`). -/
def _extract_text_from_event_parts (parts : Option (List Part)) : String :=
  match firstText (parts.getD []) with
  | some t => t
  | none =>
    match firstResp (parts.getD []) with
    | some resp =>
      let out :=
        match resp with
        | JsonValue.obj fields =>
          match fields.lookup "output" with
          | some o => o
          | none =>
            match fields.lookup "result" with
            | some r => r
            | none => resp
        | _ => resp
      pyStrOf out
    | none => ""

/-- Spec-side reading of per-part direct text: the text payload when present
and non-empty. -/
def directText (p : Part) : Option String :=
  match p.text with
  | some s => if s = "" then none else some s
  | none => none

/-- Spec-side reading of per-part function-result payload. -/
def fnResult (p : Part) : Option JsonValue :=
  match p.function_response with
  | some fr => fr.response
  | none => none

/-- Spec-side unwrapping precedence for a function-result mapping: the field
named "output", else the field named "result", else the raw payload. -/
def unwrapFR (resp : JsonValue) : JsonValue :=
  match resp with
  | JsonValue.obj fields =>
    match fields.lookup "output" with
    | some o => o
    | none =>
      match fields.lookup "result" with
      | some r => r
      | none => resp
  | _ => resp

/-- Spec-side coercion: structured (mapping or sequence) values are serialized
to canonical JSON text, anything else is coerced to a string. -/
def coerceText (v : JsonValue) : String :=
  match v with
  | JsonValue.obj _ => jsonDumps v
  | JsonValue.arr _ => jsonDumps v
  | JsonValue.str s => s
  | JsonValue.num n => toString n
  | JsonValue.bool b => if b then "True" else "False"
  | JsonValue.null => "None"

/-- Spec-side statement of the extraction policy, written from the claim's
words: direct text of the first text-bearing part verbatim; otherwise the
unwrapped first function-result coerced to text; otherwise empty. -/
def extractTextSpec (parts : Option (List Part)) : String :=
  let ps := parts.getD []
  match (ps.filterMap directText).head? with
  | some t => t
  | none =>
    match (ps.filterMap fnResult).head? with
    | some resp => coerceText (unwrapFR resp)
    | none => ""

/-- `google.genai.types.Content`: the tracker reads only `parts`, which may be
Python `None`. -/
structure Content where
  parts : Option (List Part)

/-- `google.adk.events.EventActions` as read by the tracker: only
`transfer_to_agent` matters. -/
structure EventActions where
  transfer_to_agent : Option String := none

/-- One execution event as consumed by `run_agent_with_tracking`: the
attributes the loop reads, with `function_calls` standing for the names
returned by `event.get_function_calls()` and `is_final_response` for
`event.is_final_response()`. -/
structure Event where
  author : String
  invocation_id : String := ""
  branch : Option String := none
  timestamp : Int := 0
  id : String := ""
  content : Option Content := none
  function_calls : List String := []
  actions : Option EventActions := none
  is_final_response : Bool := false

/-- `event.content.parts` with Python `None` propagation. -/
def Event.partsOf (e : Event) : Option (List Part) :=
  match e.content with
  | some c => c.parts
  | none => none

/-- Truthiness of `event.content.parts` (a present, non-empty list). -/
def Event.partsTruthy (e : Event) : Bool :=
  match e.content with
  | some c =>
    match c.parts with
    | some (_ :: _) => true
    | _ => false
  | none => false

/-- The text the tracker extracts from this event's parts. -/
def Event.extract (e : Event) : String :=
  _extract_text_from_event_parts e.partsOf

/-- The guard `event.content and event.content.parts and not event.author ==
"user"` under which the loop counts an event as an LLM call. -/
def Event.countsAsLlmCall (e : Event) : Bool :=
  e.content.isSome && e.partsTruthy && !(e.author == "user")

/-- The condition under which the loop sets the final response and breaks:
terminal flag, content with non-empty parts, and non-empty extracted text. -/
def Event.breakCond (e : Event) : Bool :=
  e.is_final_response && e.content.isSome && e.partsTruthy && !(e.extract == "")

/-- Entry of the `agents_called` list: a stage on first appearance. -/
structure AgentCalled where
  agent_name : String
  first_seen : Int
  branch : Option String
deriving Repr, DecidableEq

/-- Entry of the `execution_flow` log: either the per-event record or the
synthetic transfer record. -/
inductive FlowEntry where
  | event (agent_name : String) (invocation_id : String) (branch : Option String)
      (timestamp : Int) (event_id : String)
  | transfer (from_agent : String) (to_agent : String) (timestamp : Int)
deriving Repr, DecidableEq

/-- One record of the `llm_calls` list. -/
structure LlmCallInfo where
  call_number : Nat
  agent_name : String
  timestamp : Int
  event_id : String
  invocation_id : String
  has_function_calls : Bool
  function_calls : List String
  content_length : Nat
  is_final : Bool
deriving Repr, DecidableEq

/-- Per-stage running statistics (`llm_call_stats[agent]`). -/
structure AgentStats where
  total_calls : Nat
  function_calls : Nat
  total_content_length : Nat
  first_call : Int
  last_call : Int
deriving Repr, DecidableEq

/-- Mutable loop state of `run_agent_with_tracking`.  `llm_call_stats` is an
association list in insertion order, matching a Python dict. -/
structure TrackState where
  agents_called : List AgentCalled
  execution_flow : List FlowEntry
  llm_calls : List LlmCallInfo
  llm_call_stats : List (String × AgentStats)
  final_response : String
  total_llm_calls : Nat
deriving Repr, DecidableEq

/-- The loop state before the first event. -/
def initState : TrackState :=
  { agents_called := [], execution_flow := [], llm_calls := [],
    llm_call_stats := [], final_response := "", total_llm_calls := 0 }

/-- Python whitespace as stripped by `str.strip()`. -/
def isPySpace (c : Char) : Bool :=
  c = ' ' || c = '\t' || c = '\n' || c = '\r' || c = '\x0b' || c = '\x0c'

/-- Python `str.strip()` with no argument. -/
def pyStrip (s : String) : String :=
  String.mk (((s.toList.dropWhile isPySpace).reverse.dropWhile isPySpace).reverse)

/-- First half of the stats update: a fresh zeroed entry (first/last call set
to the event timestamp) is appended when the author is not yet a key. -/
def ensureStats (stats : List (String × AgentStats)) (author : String) (ts : Int) :
    List (String × AgentStats) :=
  if (stats.lookup author).isSome then stats
  else stats ++ [(author,
    { total_calls := 0, function_calls := 0, total_content_length := 0,
      first_call := ts, last_call := ts })]

/-- Second half of the stats update: increment the author's entry in place. -/
def bumpStats (stats : List (String × AgentStats)) (author : String) (clen : Nat)
    (hasFc : Bool) (ts : Int) : List (String × AgentStats) :=
  match stats with
  | [] => []
  | (k, v) :: rest =>
    if k = author then
      (k, { v with
        total_calls := v.total_calls + 1,
        total_content_length := v.total_content_length + clen,
        last_call := ts,
        function_calls := if hasFc then v.function_calls + 1 else v.function_calls }) :: rest
    else (k, v) :: bumpStats rest author clen hasFc ts

/-- Loop section "Track agent information / Add to agents called list / Track
execution flow": the per-event flow entry is always appended, and the author is
appended to `agents_called` on first appearance only. -/
def trackAgents (st : TrackState) (e : Event) : TrackState :=
  let agents :=
    if e.author ∈ st.agents_called.map (fun a => a.agent_name) then st.agents_called
    else st.agents_called ++
      [{ agent_name := e.author, first_seen := e.timestamp, branch := e.branch }]
  { st with
    agents_called := agents,
    execution_flow := st.execution_flow ++
      [FlowEntry.event e.author e.invocation_id e.branch e.timestamp e.id] }

/-- The record appended to `llm_calls` for a counted event. -/
def llmCallInfoOf (total : Nat) (e : Event) : LlmCallInfo :=
  { call_number := total, agent_name := e.author, timestamp := e.timestamp,
    event_id := e.id, invocation_id := e.invocation_id,
    has_function_calls := !e.function_calls.isEmpty, function_calls := e.function_calls,
    content_length := e.extract.length, is_final := e.is_final_response }

/-- Loop section "Track LLM calls": events with content parts from a non-user
author are counted, their call record appended, and the author's statistics
entry created and/or incremented. -/
def trackLlmCall (st : TrackState) (e : Event) : TrackState :=
  if e.countsAsLlmCall then
    { st with
      total_llm_calls := st.total_llm_calls + 1,
      llm_calls := st.llm_calls ++ [llmCallInfoOf (st.total_llm_calls + 1) e],
      llm_call_stats :=
        bumpStats (ensureStats st.llm_call_stats e.author e.timestamp)
          e.author e.extract.length (!e.function_calls.isEmpty) e.timestamp }
  else st

/-- Loop section "Check for agent transfers": a truthy transfer directive
appends the synthetic transfer entry to the flow log. -/
def trackTransfer (st : TrackState) (e : Event) : TrackState :=
  match e.actions with
  | some a =>
    match a.transfer_to_agent with
    | some t =>
      if t = "" then st
      else { st with execution_flow :=
        st.execution_flow ++ [FlowEntry.transfer e.author t e.timestamp] }
    | none => st
  | none => st

/-- Loop section "Capture final response": a terminal event with content,
non-empty parts and non-empty extracted text sets the final response to the
stripped text and breaks out of the loop. -/
def captureFinal (st : TrackState) (e : Event) : TrackState × Bool :=
  if e.is_final_response && e.content.isSome then
    if e.partsTruthy then
      if e.extract = "" then (st, false)
      else ({ st with final_response := pyStrip e.extract }, true)
    else (st, false)
  else (st, false)

/-- One iteration of the event loop of `run_agent_with_tracking`, in the
source's section order.  The returned Bool is the break flag. -/
def processEvent (st : TrackState) (e : Event) : TrackState × Bool :=
  captureFinal (trackTransfer (trackLlmCall (trackAgents st e) e) e) e

/-- The `async for` loop over the event stream; the Bool records whether the
loop broke early on a terminal event. -/
def runLoop (st : TrackState) : List Event → TrackState × Bool
  | [] => (st, false)
  | e :: rest =>
    if (processEvent st e).2 then ((processEvent st e).1, true)
    else runLoop (processEvent st e).1 rest

/-- The event stream handed to the tracker: the finite list of events the
generator yields, and an optional exception description the generator raises
after those events (Python: the `async for` raises before completing). -/
structure EventStream where
  events : List Event
  error : Option String := none

/-- Python `max(llm_call_stats.items(), key=lambda x: x[1]["total_calls"])[0]`:
first item attaining the maximal total_calls, `none` on an empty dict. -/
def mostActiveAgent (stats : List (String × AgentStats)) : Option String :=
  match stats with
  | [] => none
  | x :: xs =>
    some ((xs.foldl (fun best y => if best.2.total_calls < y.2.total_calls then y else best) x).1)

/-- The fixed fallback message for an incomplete response. -/
def fallbackMsg : String :=
  "I\x27m processing your request, but didn\x27t receive a complete response. Please try again."

/-- The fixed error string embedding the failure description. -/
def errorMsgOf (msg : String) : String :=
  "An error occurred: " ++ msg ++ ". Please try again."

/-- The `summary` sub-record of the returned report. -/
structure Summary where
  total_agents_used : Nat
  total_llm_calls : Nat
  agents_with_llm_calls : List String
  most_active_agent : Option String
deriving Repr, DecidableEq

/-- The report returned by `run_agent_with_tracking`. -/
structure TrackingResult where
  response : String
  agents_called : List AgentCalled
  execution_flow : List FlowEntry
  total_agents : Nat
  llm_calls : List LlmCallInfo
  total_llm_calls : Nat
  llm_call_stats : List (String × AgentStats)
  summary : Summary
deriving Repr, DecidableEq

/-- The report built on the normal (non-exception) exit of the loop. -/
def normalResult (st : TrackState) : TrackingResult :=
  { response := if st.final_response = "" then fallbackMsg else st.final_response,
    agents_called := st.agents_called,
    execution_flow := st.execution_flow,
    total_agents := st.agents_called.length,
    llm_calls := st.llm_calls,
    total_llm_calls := st.total_llm_calls,
    llm_call_stats := st.llm_call_stats,
    summary :=
      { total_agents_used := st.agents_called.length,
        total_llm_calls := st.total_llm_calls,
        agents_with_llm_calls := st.llm_call_stats.map (fun p => p.1),
        most_active_agent := mostActiveAgent st.llm_call_stats } }

/-- The report built in the `except` handler. -/
def errorResult (msg : String) : TrackingResult :=
  { response := errorMsgOf msg,
    agents_called := [], execution_flow := [], total_agents := 0,
    llm_calls := [], total_llm_calls := 0, llm_call_stats := [],
    summary :=
      { total_agents_used := 0, total_llm_calls := 0,
        agents_with_llm_calls := [], most_active_agent := none } }

/-- Embedding of `SessionManager.run_agent_with_tracking` as a function of the
event stream: run the loop; if the loop broke early the generator is abandoned
and its pending failure never fires; otherwise a pending failure is caught by
the `except` handler and converted into the error report. -/
def run_agent_with_tracking (s : EventStream) : TrackingResult :=
  if (runLoop initState s.events).2 then normalResult (runLoop initState s.events).1
  else
    match s.error with
    | some msg => errorResult msg
    | none => normalResult (runLoop initState s.events).1


/-- The synthetic flow entries a single event's transfer directive adds. -/
def transferEntries (e : Event) : List FlowEntry :=
  match e.actions with
  | some a =>
    match a.transfer_to_agent with
    | some t => if t = "" then [] else [FlowEntry.transfer e.author t e.timestamp]
    | none => []
  | none => []

/-- Sum of the per-stage call counts over the statistics mapping. -/
def sumCalls (stats : List (String × AgentStats)) : Nat :=
  (stats.map (fun p => p.2.total_calls)).sum

/-- The zeroed statistics entry created on a stage's first counted call. -/
def freshStats (ts : Int) : AgentStats :=
  { total_calls := 0, function_calls := 0, total_content_length := 0,
    first_call := ts, last_call := ts }

/-- The statistics entry after one counted call is folded in. -/
def bumpedStats (v : AgentStats) (clen : Nat) (hasFc : Bool) (ts : Int) : AgentStats :=
  { v with
    total_calls := v.total_calls + 1,
    total_content_length := v.total_content_length + clen,
    last_call := ts,
    function_calls := if hasFc then v.function_calls + 1 else v.function_calls }

/-- The fold Python's `max` performs over the statistics items. -/
def pickBest (x : String × AgentStats) (xs : List (String × AgentStats)) :
    String × AgentStats :=
  xs.foldl (fun best y => if best.2.total_calls < y.2.total_calls then y else best) x

/-- The invariants the running tracker state maintains. -/
structure TrackInv (st : TrackState) : Prop where
  len_eq : st.total_llm_calls = st.llm_calls.length
  sum_eq : st.total_llm_calls = sumCalls st.llm_call_stats
  nums : st.llm_calls.map (fun c => c.call_number) = List.range' 1 st.total_llm_calls
  keys_sub : ∀ p ∈ st.llm_call_stats, p.1 ∈ st.agents_called.map (fun a => a.agent_name)
  pos : ∀ p ∈ st.llm_call_stats, 1 ≤ p.2.total_calls

/-- A session as seen by the manager: its mutable state dict, modelled as an
insertion-ordered association list. -/
structure PySession (V : Type) where
  state : List (String × V)

/-- Modelled from the spec: `google.adk.sessions.InMemorySessionService` is an
external dependency whose code is not in this repository.  Per the spec it is
an in-process store of Sessions keyed by (user identifier, session identifier)
for a fixed app name, holding each session's Artifact Store by reference
("lives in process memory only"). -/
def SessionService (V : Type) := List ((String × String) × PySession V)

/-- Modelled from the spec: `session_service.get_session` returns the stored
session for the (user, session) pair, or Python `None` when absent. -/
def get_session {V : Type} (svc : SessionService V) (user_id session_id : String) :
    Option (PySession V) :=
  List.lookup (user_id, session_id) svc

/-- Modelled from the spec: writing the (possibly updated) session back into
the in-memory store under its key. -/
def set_session {V : Type} (svc : SessionService V) (user_id session_id : String)
    (s : PySession V) : SessionService V :=
  svc.map (fun e => if e.1 = (user_id, session_id) then (e.1, s) else e)

/-- Python `dict.update`: keys already present are overwritten in place, new
keys are appended in the update's order. -/
def dictUpdate {V : Type} (d upd : List (String × V)) : List (String × V) :=
  upd.foldl
    (fun acc kv =>
      if (acc.lookup kv.1).isSome then
        acc.map (fun p => if p.1 = kv.1 then (p.1, kv.2) else p)
      else acc ++ [kv])
    d

/-- Embedding of `SessionManager.update_session_state`: fetch the session and
merge the partial mapping into its state dict; a silent no-op when the session
is absent (and errors are swallowed). -/
def update_session_state {V : Type} (svc : SessionService V)
    (user_id session_id : String) (state_update : List (String × V)) :
    SessionService V :=
  match get_session svc user_id session_id with
  | some s => set_session svc user_id session_id ⟨dictUpdate s.state state_update⟩
  | none => svc

/-- Embedding of `SessionManager.get_session_state` on the normal path: the
session's state dict, or the empty mapping when the session is absent. -/
def get_session_state {V : Type} (svc : SessionService V)
    (user_id session_id : String) : List (String × V) :=
  match get_session svc user_id session_id with
  | some s => s.state
  | none => []

/-- Embedding of `SessionManager.get_session_state` as a function of the
outcome of the underlying `session_service.get_session` call, which (modelled
from the spec) may also fail: `try` the call; a raised failure is logged and
the empty mapping returned; a `None` session also yields the empty mapping. -/
def get_session_state_outcome {V : Type}
    (outcome : Except String (Option (PySession V))) : List (String × V) :=
  match outcome with
  | Except.ok (some s) => s.state
  | Except.ok none => []
  | Except.error _ => []

/-- Python `key in dict` on the association-list model. -/
def pyContains {V : Type} (d : List (String × V)) (k : String) : Bool :=
  (d.lookup k).isSome

/-- Embedding of `SessionManager._determine_current_step`: the fixed
descending precedence over artifact keys. -/
def _determine_current_step {V : Type} (state : List (String × V)) : String :=
  if pyContains state "seo_optimized_content" then "completed"
  else if pyContains state "expert_feedback" then "feedback_received"
  else if pyContains state "content_draft" then "draft_completed"
  else if pyContains state "content_outline" then "outline_ready"
  else if pyContains state "generated_ideas" then "ideas_generated"
  else "starting"


lemma firstText_eq (ps : List Part) : firstText ps = (ps.filterMap directText).head? := by
  induction ps with
  | nil => rfl
  | cons p rest ih =>
    simp only [firstText, List.filterMap_cons]
    cases h : p.text with
    | none => simp [directText, h, ih]
    | some s =>
      by_cases hs : s = ""
      · simp [directText, h, hs, ih]
      · simp [directText, h, hs]

lemma firstResp_eq (ps : List Part) : firstResp ps = (ps.filterMap fnResult).head? := by
  induction ps with
  | nil => rfl
  | cons p rest ih =>
    simp only [firstResp, List.filterMap_cons]
    cases h : p.function_response with
    | none => simp [fnResult, h, ih]
    | some fr =>
      cases hr : fr.response with
      | none => simp [fnResult, h, hr, ih]
      | some r => simp [fnResult, h, hr]

lemma pyStrOf_eq_coerceText (v : JsonValue) : pyStrOf v = coerceText v := by
  cases v <;> rfl

lemma extract_eq_spec (parts : Option (List Part)) :
    _extract_text_from_event_parts parts = extractTextSpec parts := by
  unfold _extract_text_from_event_parts extractTextSpec
  rw [firstText_eq, firstResp_eq]
  cases h1 : ((parts.getD []).filterMap directText).head? with
  | some t => simp [h1]
  | none =>
    cases h2 : ((parts.getD []).filterMap fnResult).head? with
    | none => simp [h1, h2]
    | some resp =>
      simp only [h1, h2]
      cases resp with
      | obj fields =>
        simp only [unwrapFR]
        cases ho : fields.lookup "output" with
        | some o => simp [ho, pyStrOf_eq_coerceText]
        | none =>
          cases hr : fields.lookup "result" with
          | some r => simp [ho, hr, pyStrOf_eq_coerceText]
          | none => simp [ho, hr, pyStrOf_eq_coerceText]
      | str s => simp [unwrapFR, pyStrOf_eq_coerceText]
      | num n => simp [unwrapFR, pyStrOf_eq_coerceText]
      | bool b => simp [unwrapFR, pyStrOf_eq_coerceText]
      | null => simp [unwrapFR, pyStrOf_eq_coerceText]
      | arr xs => simp [unwrapFR, pyStrOf_eq_coerceText]


lemma extract_ne_empty_truthy (e : Event) (h : e.extract ≠ "") :
    e.content.isSome = true ∧ e.partsTruthy = true := by
  cases hc : e.content with
  | none =>
    exfalso
    apply h
    simp [Event.extract, Event.partsOf, hc, _extract_text_from_event_parts, firstText, firstResp]
  | some c =>
    cases hp : c.parts with
    | none =>
      exfalso
      apply h
      simp [Event.extract, Event.partsOf, hc, hp, _extract_text_from_event_parts, firstText,
        firstResp]
    | some l =>
      cases l with
      | nil =>
        exfalso
        apply h
        simp [Event.extract, Event.partsOf, hc, hp, _extract_text_from_event_parts, firstText,
          firstResp]
      | cons p r =>
        refine ⟨by simp [hc], ?_⟩
        simp [Event.partsTruthy, hc, hp]

lemma breakCond_iff (e : Event) :
    e.breakCond = true ↔ (e.is_final_response = true ∧ e.extract ≠ "") := by
  constructor
  · intro h
    simp only [Event.breakCond, Bool.and_eq_true, Bool.not_eq_true'] at h
    exact ⟨h.1.1.1, by simpa [beq_eq_false_iff_ne] using h.2⟩
  · rintro ⟨hf, hx⟩
    have ht := extract_ne_empty_truthy e hx
    simp only [Event.breakCond, Bool.and_eq_true, Bool.not_eq_true']
    exact ⟨⟨⟨hf, ht.1⟩, ht.2⟩, beq_eq_false_iff_ne.mpr hx⟩

lemma trackAgents_stats (st : TrackState) (e : Event) :
    (trackAgents st e).llm_call_stats = st.llm_call_stats := rfl

lemma trackAgents_total (st : TrackState) (e : Event) :
    (trackAgents st e).total_llm_calls = st.total_llm_calls := rfl

lemma trackAgents_calls (st : TrackState) (e : Event) :
    (trackAgents st e).llm_calls = st.llm_calls := rfl

lemma trackAgents_final (st : TrackState) (e : Event) :
    (trackAgents st e).final_response = st.final_response := rfl

lemma trackAgents_flow (st : TrackState) (e : Event) :
    (trackAgents st e).execution_flow = st.execution_flow ++
      [FlowEntry.event e.author e.invocation_id e.branch e.timestamp e.id] := rfl

lemma trackAgents_author_mem (st : TrackState) (e : Event) :
    e.author ∈ (trackAgents st e).agents_called.map (fun a => a.agent_name) := by
  unfold trackAgents
  by_cases h : e.author ∈ st.agents_called.map (fun a => a.agent_name)
  · simp [h]
  · simp [h]

lemma trackAgents_agents_mono (st : TrackState) (e : Event) (x : String)
    (h : x ∈ st.agents_called.map (fun a => a.agent_name)) :
    x ∈ (trackAgents st e).agents_called.map (fun a => a.agent_name) := by
  unfold trackAgents
  by_cases hm : e.author ∈ st.agents_called.map (fun a => a.agent_name)
  · simp [hm, h]
  · simp only [hm, if_false, List.map_append, List.mem_append]
    exact Or.inl h

lemma trackLlmCall_pos (st : TrackState) (e : Event) (h : e.countsAsLlmCall = true) :
    trackLlmCall st e =
      { st with
        total_llm_calls := st.total_llm_calls + 1,
        llm_calls := st.llm_calls ++ [llmCallInfoOf (st.total_llm_calls + 1) e],
        llm_call_stats :=
          bumpStats (ensureStats st.llm_call_stats e.author e.timestamp)
            e.author e.extract.length (!e.function_calls.isEmpty) e.timestamp } := by
  unfold trackLlmCall
  simp [h]

lemma trackLlmCall_neg (st : TrackState) (e : Event) (h : e.countsAsLlmCall = false) :
    trackLlmCall st e = st := by
  unfold trackLlmCall
  simp [h]

lemma trackLlmCall_agents (st : TrackState) (e : Event) :
    (trackLlmCall st e).agents_called = st.agents_called := by
  cases h : e.countsAsLlmCall
  · rw [trackLlmCall_neg st e h]
  · rw [trackLlmCall_pos st e h]

lemma trackLlmCall_flow (st : TrackState) (e : Event) :
    (trackLlmCall st e).execution_flow = st.execution_flow := by
  cases h : e.countsAsLlmCall
  · rw [trackLlmCall_neg st e h]
  · rw [trackLlmCall_pos st e h]

lemma trackLlmCall_final (st : TrackState) (e : Event) :
    (trackLlmCall st e).final_response = st.final_response := by
  cases h : e.countsAsLlmCall
  · rw [trackLlmCall_neg st e h]
  · rw [trackLlmCall_pos st e h]

lemma trackTransfer_eq (st : TrackState) (e : Event) :
    trackTransfer st e =
      { st with execution_flow := st.execution_flow ++ transferEntries e } := by
  unfold trackTransfer transferEntries
  cases ha : e.actions with
  | none => simp
  | some a =>
    cases ht : a.transfer_to_agent with
    | none => simp [ht]
    | some t => by_cases h : t = "" <;> simp [ht, h]

lemma trackTransfer_agents (st : TrackState) (e : Event) :
    (trackTransfer st e).agents_called = st.agents_called := by
  rw [trackTransfer_eq]

lemma trackTransfer_stats (st : TrackState) (e : Event) :
    (trackTransfer st e).llm_call_stats = st.llm_call_stats := by
  rw [trackTransfer_eq]

lemma trackTransfer_total (st : TrackState) (e : Event) :
    (trackTransfer st e).total_llm_calls = st.total_llm_calls := by
  rw [trackTransfer_eq]

lemma trackTransfer_calls (st : TrackState) (e : Event) :
    (trackTransfer st e).llm_calls = st.llm_calls := by
  rw [trackTransfer_eq]

lemma trackTransfer_final (st : TrackState) (e : Event) :
    (trackTransfer st e).final_response = st.final_response := by
  rw [trackTransfer_eq]

lemma captureFinal_eq (st : TrackState) (e : Event) :
    captureFinal st e =
      (if e.breakCond = true then { st with final_response := pyStrip e.extract } else st,
        e.breakCond) := by
  by_cases hx : e.extract = ""
  · cases hf : e.is_final_response <;> cases hc : e.content.isSome <;>
      cases hp : e.partsTruthy <;>
        simp [captureFinal, Event.breakCond, hf, hc, hp, hx]
  · have hb : (e.extract == "") = false := beq_eq_false_iff_ne.mpr hx
    cases hf : e.is_final_response <;> cases hc : e.content.isSome <;>
      cases hp : e.partsTruthy <;>
        simp [captureFinal, Event.breakCond, hf, hc, hp, hx, hb]

lemma captureFinal_snd (st : TrackState) (e : Event) :
    (captureFinal st e).2 = e.breakCond := by
  rw [captureFinal_eq]

lemma captureFinal_agents (st : TrackState) (e : Event) :
    (captureFinal st e).1.agents_called = st.agents_called := by
  rw [captureFinal_eq]
  by_cases h : e.breakCond = true <;> simp [h]

lemma captureFinal_flow (st : TrackState) (e : Event) :
    (captureFinal st e).1.execution_flow = st.execution_flow := by
  rw [captureFinal_eq]
  by_cases h : e.breakCond = true <;> simp [h]

lemma captureFinal_stats (st : TrackState) (e : Event) :
    (captureFinal st e).1.llm_call_stats = st.llm_call_stats := by
  rw [captureFinal_eq]
  by_cases h : e.breakCond = true <;> simp [h]

lemma captureFinal_total (st : TrackState) (e : Event) :
    (captureFinal st e).1.total_llm_calls = st.total_llm_calls := by
  rw [captureFinal_eq]
  by_cases h : e.breakCond = true <;> simp [h]

lemma captureFinal_calls (st : TrackState) (e : Event) :
    (captureFinal st e).1.llm_calls = st.llm_calls := by
  rw [captureFinal_eq]
  by_cases h : e.breakCond = true <;> simp [h]

lemma captureFinal_break_final (st : TrackState) (e : Event) (h : e.breakCond = true) :
    (captureFinal st e).1.final_response = pyStrip e.extract := by
  rw [captureFinal_eq]
  simp [h]

lemma captureFinal_nobreak_final (st : TrackState) (e : Event) (h : e.breakCond = false) :
    (captureFinal st e).1.final_response = st.final_response := by
  rw [captureFinal_eq]
  simp [h]


lemma ensureStats_pos (stats : List (String × AgentStats)) (a : String) (ts : Int)
    (h : (stats.lookup a).isSome) : ensureStats stats a ts = stats := by
  unfold ensureStats
  simp [h]

lemma ensureStats_neg (stats : List (String × AgentStats)) (a : String) (ts : Int)
    (h : stats.lookup a = none) :
    ensureStats stats a ts = stats ++ [(a, freshStats ts)] := by
  unfold ensureStats
  simp [h, freshStats]

lemma lookup_cons_ne {β : Type} (k k' : String) (b : β) (es : List (String × β))
    (h : k ≠ k') : ((k', b) :: es).lookup k = es.lookup k := by
  simp [List.lookup_cons, beq_eq_false_iff_ne.mpr h]

lemma bumpStats_append_of_none (stats : List (String × AgentStats)) (a : String)
    (v : AgentStats) (clen : Nat) (hasFc : Bool) (ts : Int)
    (h : stats.lookup a = none) :
    bumpStats (stats ++ [(a, v)]) a clen hasFc ts = stats ++ [(a, bumpedStats v clen hasFc ts)] := by
  induction stats with
  | nil => simp [bumpStats, bumpedStats]
  | cons kv rest ih =>
    obtain ⟨k, w⟩ := kv
    by_cases hk : k = a
    · exfalso
      subst hk
      simp at h
    · have h' : rest.lookup a = none := by
        rwa [lookup_cons_ne a k w rest (fun hh => hk hh.symm)] at h
      simp only [List.cons_append, bumpStats, if_neg hk, List.append_eq]
      rw [ih h']

lemma lookup_bumpStats_self (stats : List (String × AgentStats)) (a : String)
    (v : AgentStats) (clen : Nat) (hasFc : Bool) (ts : Int)
    (h : stats.lookup a = some v) :
    (bumpStats stats a clen hasFc ts).lookup a = some (bumpedStats v clen hasFc ts) := by
  induction stats with
  | nil => simp at h
  | cons kv rest ih =>
    obtain ⟨k, w⟩ := kv
    by_cases hk : k = a
    · subst hk
      simp at h
      subst h
      simp [bumpStats, List.lookup_cons, bumpedStats]
    · have h' : rest.lookup a = some v := by
        rwa [lookup_cons_ne a k w rest (fun hh => hk hh.symm)] at h
      simp only [bumpStats]
      rw [if_neg hk]
      rw [lookup_cons_ne a k _ _ (fun hh => hk hh.symm)]
      exact ih h'

lemma lookup_bumpStats_ne (stats : List (String × AgentStats)) (a k : String)
    (clen : Nat) (hasFc : Bool) (ts : Int) (h : k ≠ a) :
    (bumpStats stats a clen hasFc ts).lookup k = stats.lookup k := by
  induction stats with
  | nil => simp [bumpStats]
  | cons kv rest ih =>
    obtain ⟨k', w⟩ := kv
    simp only [bumpStats]
    by_cases hk : k' = a
    · rw [if_pos hk]
      have hne : k ≠ k' := by rw [hk]; exact h
      rw [lookup_cons_ne k k' _ _ hne, lookup_cons_ne k k' _ _ hne]
    · rw [if_neg hk]
      by_cases hkk : k = k'
      · subst hkk
        simp
      · rw [lookup_cons_ne k k' _ _ hkk, lookup_cons_ne k k' _ _ hkk]
        exact ih

lemma lookup_ensureStats_ne (stats : List (String × AgentStats)) (a k : String) (ts : Int)
    (h : k ≠ a) : (ensureStats stats a ts).lookup k = stats.lookup k := by
  cases hl : stats.lookup a with
  | some v => rw [ensureStats_pos stats a ts (by simp [hl])]
  | none =>
    rw [ensureStats_neg stats a ts hl, List.lookup_append]
    simp [List.lookup_cons, beq_eq_false_iff_ne.mpr h]

lemma lookup_update_self (stats : List (String × AgentStats)) (a : String)
    (clen : Nat) (hasFc : Bool) (ts : Int) :
    (bumpStats (ensureStats stats a ts) a clen hasFc ts).lookup a =
      some (bumpedStats ((stats.lookup a).getD (freshStats ts)) clen hasFc ts) := by
  cases h : stats.lookup a with
  | some v =>
    rw [ensureStats_pos stats a ts (by simp [h])]
    rw [lookup_bumpStats_self stats a v clen hasFc ts h]
    simp
  | none =>
    rw [ensureStats_neg stats a ts h]
    rw [bumpStats_append_of_none stats a (freshStats ts) clen hasFc ts h]
    rw [List.lookup_append, h]
    simp

lemma lookup_update_ne (stats : List (String × AgentStats)) (a k : String)
    (clen : Nat) (hasFc : Bool) (ts : Int) (h : k ≠ a) :
    (bumpStats (ensureStats stats a ts) a clen hasFc ts).lookup k = stats.lookup k := by
  rw [lookup_bumpStats_ne _ a k clen hasFc ts h, lookup_ensureStats_ne stats a k ts h]

lemma sumCalls_append (s t : List (String × AgentStats)) :
    sumCalls (s ++ t) = sumCalls s + sumCalls t := by
  simp [sumCalls]

lemma sumCalls_bumpStats (stats : List (String × AgentStats)) (a : String)
    (clen : Nat) (hasFc : Bool) (ts : Int) (h : (stats.lookup a).isSome) :
    sumCalls (bumpStats stats a clen hasFc ts) = sumCalls stats + 1 := by
  induction stats with
  | nil => simp at h
  | cons kv rest ih =>
    obtain ⟨k, w⟩ := kv
    rw [List.lookup_cons] at h
    simp only [bumpStats]
    by_cases hk : k = a
    · rw [if_pos hk]
      simp [sumCalls, bumpedStats]
      omega
    · rw [if_neg hk]
      have hne : (a == k) = false := beq_eq_false_iff_ne.mpr (fun hh => hk hh.symm)
      rw [hne] at h
      have := ih h
      simp only [sumCalls, List.map_cons, List.sum_cons] at this ⊢
      omega

lemma sumCalls_update (stats : List (String × AgentStats)) (a : String)
    (clen : Nat) (hasFc : Bool) (ts : Int) :
    sumCalls (bumpStats (ensureStats stats a ts) a clen hasFc ts) = sumCalls stats + 1 := by
  cases h : stats.lookup a with
  | some v =>
    rw [ensureStats_pos stats a ts (by simp [h])]
    exact sumCalls_bumpStats stats a clen hasFc ts (by simp [h])
  | none =>
    rw [ensureStats_neg stats a ts h]
    rw [bumpStats_append_of_none stats a (freshStats ts) clen hasFc ts h]
    rw [sumCalls_append]
    simp [sumCalls, bumpedStats, freshStats]

lemma keys_bumpStats (stats : List (String × AgentStats)) (a : String)
    (clen : Nat) (hasFc : Bool) (ts : Int) :
    (bumpStats stats a clen hasFc ts).map (fun p => p.1) = stats.map (fun p => p.1) := by
  induction stats with
  | nil => rfl
  | cons kv rest ih =>
    obtain ⟨k, w⟩ := kv
    simp only [bumpStats]
    by_cases hk : k = a
    · rw [if_pos hk]
      simp
    · rw [if_neg hk]
      simp [ih]

lemma keys_ensureStats (stats : List (String × AgentStats)) (a : String) (ts : Int) :
    ∀ k ∈ (ensureStats stats a ts).map (fun p => p.1),
      k ∈ stats.map (fun p => p.1) ∨ k = a := by
  intro k hk
  unfold ensureStats at hk
  by_cases hs : (stats.lookup a).isSome
  · simp [hs] at hk
    exact Or.inl (by simpa using hk)
  · simp only [hs, if_false, Bool.false_eq_true, List.map_append, List.mem_append] at hk
    cases hk with
    | inl h => exact Or.inl h
    | inr h => simp at h; exact Or.inr h

lemma pos_bumpStats (stats : List (String × AgentStats)) (a : String)
    (clen : Nat) (hasFc : Bool) (ts : Int)
    (h : ∀ p ∈ stats, 1 ≤ p.2.total_calls) :
    ∀ p ∈ bumpStats stats a clen hasFc ts, 1 ≤ p.2.total_calls := by
  induction stats with
  | nil => simp [bumpStats]
  | cons kv rest ih =>
    obtain ⟨k, w⟩ := kv
    intro p hp
    simp only [bumpStats] at hp
    by_cases hk : k = a
    · rw [if_pos hk] at hp
      rcases List.mem_cons.mp hp with h1 | h2
      · subst h1
        simp [bumpedStats]
      · exact h p (List.mem_cons_of_mem _ h2)
    · rw [if_neg hk] at hp
      rcases List.mem_cons.mp hp with h1 | h2
      · subst h1
        exact h _ (List.mem_cons_self _ _)
      · exact ih (fun q hq => h q (List.mem_cons_of_mem _ hq)) p h2

lemma pos_update (stats : List (String × AgentStats)) (a : String)
    (clen : Nat) (hasFc : Bool) (ts : Int)
    (h : ∀ p ∈ stats, 1 ≤ p.2.total_calls) :
    ∀ p ∈ bumpStats (ensureStats stats a ts) a clen hasFc ts, 1 ≤ p.2.total_calls := by
  cases hl : stats.lookup a with
  | some v =>
    rw [ensureStats_pos stats a ts (by simp [hl])]
    exact pos_bumpStats stats a clen hasFc ts h
  | none =>
    rw [ensureStats_neg stats a ts hl]
    rw [bumpStats_append_of_none stats a (freshStats ts) clen hasFc ts hl]
    intro p hp
    rcases List.mem_append.mp hp with h1 | h2
    · exact h p h1
    · simp at h2
      subst h2
      simp [bumpedStats, freshStats]


lemma processEvent_snd (st : TrackState) (e : Event) :
    (processEvent st e).2 = e.breakCond := by
  unfold processEvent
  rw [captureFinal_snd]

lemma processEvent_agents (st : TrackState) (e : Event) :
    (processEvent st e).1.agents_called = (trackAgents st e).agents_called := by
  unfold processEvent
  rw [captureFinal_agents, trackTransfer_agents, trackLlmCall_agents]

lemma processEvent_stats (st : TrackState) (e : Event) :
    (processEvent st e).1.llm_call_stats =
      (trackLlmCall (trackAgents st e) e).llm_call_stats := by
  unfold processEvent
  rw [captureFinal_stats, trackTransfer_stats]

lemma processEvent_total (st : TrackState) (e : Event) :
    (processEvent st e).1.total_llm_calls =
      (trackLlmCall (trackAgents st e) e).total_llm_calls := by
  unfold processEvent
  rw [captureFinal_total, trackTransfer_total]

lemma processEvent_calls (st : TrackState) (e : Event) :
    (processEvent st e).1.llm_calls = (trackLlmCall (trackAgents st e) e).llm_calls := by
  unfold processEvent
  rw [captureFinal_calls, trackTransfer_calls]

lemma processEvent_final_nobreak (st : TrackState) (e : Event) (h : e.breakCond = false) :
    (processEvent st e).1.final_response = st.final_response := by
  unfold processEvent
  rw [captureFinal_nobreak_final _ _ h, trackTransfer_final, trackLlmCall_final,
    trackAgents_final]

lemma processEvent_final_break (st : TrackState) (e : Event) (h : e.breakCond = true) :
    (processEvent st e).1.final_response = pyStrip e.extract := by
  unfold processEvent
  rw [captureFinal_break_final _ _ h]

lemma trackInv_init : TrackInv initState := by
  constructor <;> simp [initState, sumCalls]

lemma trackInv_processEvent (st : TrackState) (e : Event) (h : TrackInv st) :
    TrackInv (processEvent st e).1 := by
  cases hc : e.countsAsLlmCall with
  | false =>
    have hB : trackLlmCall (trackAgents st e) e = trackAgents st e :=
      trackLlmCall_neg _ e hc
    constructor
    · rw [processEvent_total, processEvent_calls, hB, trackAgents_total, trackAgents_calls]
      exact h.len_eq
    · rw [processEvent_total, processEvent_stats, hB, trackAgents_total, trackAgents_stats]
      exact h.sum_eq
    · rw [processEvent_total, processEvent_calls, hB, trackAgents_total, trackAgents_calls]
      exact h.nums
    · intro p hp
      rw [processEvent_stats, hB, trackAgents_stats] at hp
      rw [processEvent_agents]
      exact trackAgents_agents_mono st e p.1 (h.keys_sub p hp)
    · intro p hp
      rw [processEvent_stats, hB, trackAgents_stats] at hp
      exact h.pos p hp
  | true =>
    have hB := trackLlmCall_pos (trackAgents st e) e hc
    constructor
    · rw [processEvent_total, processEvent_calls, hB]
      simp only [trackAgents_total, trackAgents_calls]
      rw [h.len_eq]
      simp
    · rw [processEvent_total, processEvent_stats, hB]
      simp only [trackAgents_total, trackAgents_stats]
      rw [h.sum_eq, sumCalls_update]
    · rw [processEvent_total, processEvent_calls, hB]
      simp only [trackAgents_total, trackAgents_calls]
      simp only [List.map_append, h.nums, llmCallInfoOf, List.map_cons, List.map_nil]
      rw [List.range'_1_concat]
      simp [Nat.add_comm]
    · intro p hp
      rw [processEvent_stats, hB] at hp
      simp only [trackAgents_stats] at hp
      rw [processEvent_agents]
      have hk : p.1 ∈ (bumpStats (ensureStats st.llm_call_stats e.author e.timestamp)
          e.author e.extract.length (!e.function_calls.isEmpty) e.timestamp).map
            (fun q => q.1) :=
        List.mem_map_of_mem _ hp
      rw [keys_bumpStats] at hk
      cases keys_ensureStats st.llm_call_stats e.author e.timestamp p.1 hk with
      | inl hmem =>
        obtain ⟨q, hq, hq1⟩ := List.mem_map.mp hmem
        rw [← hq1]
        exact trackAgents_agents_mono st e q.1 (h.keys_sub q hq)
      | inr ha =>
        rw [ha]
        exact trackAgents_author_mem st e
    · intro p hp
      rw [processEvent_stats, hB] at hp
      simp only [trackAgents_stats] at hp
      exact pos_update st.llm_call_stats e.author e.extract.length
        (!e.function_calls.isEmpty) e.timestamp h.pos p hp

lemma trackInv_runLoop (st : TrackState) (events : List Event) (h : TrackInv st) :
    TrackInv (runLoop st events).1 := by
  induction events generalizing st with
  | nil => simpa [runLoop] using h
  | cons e rest ih =>
    simp only [runLoop]
    by_cases hb : (processEvent st e).2 = true
    · simp only [hb, if_true]
      exact trackInv_processEvent st e h
    · simp only [hb, if_false, Bool.false_eq_true]
      exact ih _ (trackInv_processEvent st e h)

lemma runLoop_snd (st : TrackState) (events : List Event) :
    (runLoop st events).2 = events.any (fun e => e.breakCond) := by
  induction events generalizing st with
  | nil => simp [runLoop]
  | cons e rest ih =>
    simp only [runLoop, List.any_cons]
    rw [processEvent_snd]
    by_cases hb : e.breakCond = true
    · simp [hb]
    · simp only [Bool.not_eq_true] at hb
      simp [hb, ih]

lemma runLoop_final_nobreak (st : TrackState) (events : List Event)
    (h : ∀ e ∈ events, e.breakCond = false) :
    (runLoop st events).1.final_response = st.final_response := by
  induction events generalizing st with
  | nil => simp [runLoop]
  | cons e rest ih =>
    have he : e.breakCond = false := h e (List.mem_cons_self _ _)
    simp only [runLoop, processEvent_snd, he, Bool.false_eq_true, if_false]
    rw [ih _ (fun x hx => h x (List.mem_cons_of_mem _ hx))]
    exact processEvent_final_nobreak st e he

lemma runLoop_prefix_break (st : TrackState) (l1 : List Event) (e : Event) (l2 : List Event)
    (h1 : ∀ x ∈ l1, x.breakCond = false) (h2 : e.breakCond = true) :
    runLoop st (l1 ++ e :: l2) = runLoop st (l1 ++ [e]) := by
  induction l1 generalizing st with
  | nil =>
    simp only [List.nil_append, runLoop, processEvent_snd, h2, if_true]
  | cons x rest ih =>
    have hx : x.breakCond = false := h1 x (List.mem_cons_self _ _)
    simp only [List.cons_append, runLoop, processEvent_snd, hx, Bool.false_eq_true, if_false]
    exact ih _ (fun y hy => h1 y (List.mem_cons_of_mem _ hy))

lemma runLoop_break_final (st : TrackState) (l1 : List Event) (e : Event)
    (h1 : ∀ x ∈ l1, x.breakCond = false) (h2 : e.breakCond = true) :
    (runLoop st (l1 ++ [e])).1.final_response = pyStrip e.extract := by
  induction l1 generalizing st with
  | nil =>
    simp only [List.nil_append, runLoop, processEvent_snd, h2, if_true]
    exact processEvent_final_break st e h2
  | cons x rest ih =>
    have hx : x.breakCond = false := h1 x (List.mem_cons_self _ _)
    simp only [List.cons_append, runLoop, processEvent_snd, hx, Bool.false_eq_true, if_false]
    exact ih _ (fun y hy => h1 y (List.mem_cons_of_mem _ hy))

lemma run_eq_normal (s : EventStream)
    (h : s.error = none ∨ ∃ e ∈ s.events, e.breakCond = true) :
    run_agent_with_tracking s = normalResult (runLoop initState s.events).1 := by
  unfold run_agent_with_tracking
  cases hb : (runLoop initState s.events).2 with
  | true => simp [hb]
  | false =>
    cases h with
    | inl he => simp [hb, he]
    | inr hex =>
      exfalso
      rw [runLoop_snd] at hb
      obtain ⟨e, he, hbe⟩ := hex
      have : s.events.any (fun e => e.breakCond) = true :=
        List.any_eq_true.mpr ⟨e, he, hbe⟩
      rw [this] at hb
      exact absurd hb (by simp)

lemma run_eq_error (s : EventStream) (msg : String) (he : s.error = some msg)
    (hb : ∀ e ∈ s.events, e.breakCond = false) :
    run_agent_with_tracking s = errorResult msg := by
  unfold run_agent_with_tracking
  have h2 : (runLoop initState s.events).2 = false := by
    rw [runLoop_snd]
    simp only [List.any_eq_false]
    intro e hme
    simp [hb e hme]
  simp [h2, he]


lemma mostActiveAgent_cons (x : String × AgentStats) (xs : List (String × AgentStats)) :
    mostActiveAgent (x :: xs) = some (pickBest x xs).1 := rfl

lemma pickBest_spec (xs : List (String × AgentStats)) :
    ∀ x : String × AgentStats, ∃ l1 l2,
      x :: xs = l1 ++ pickBest x xs :: l2 ∧
      (∀ y ∈ l1, y.2.total_calls < (pickBest x xs).2.total_calls) ∧
      (∀ y ∈ x :: xs, y.2.total_calls ≤ (pickBest x xs).2.total_calls) := by
  induction xs with
  | nil =>
    intro x
    exact ⟨[], [], rfl, by simp, by simp [pickBest]⟩
  | cons y ys ih =>
    intro x
    by_cases hxy : x.2.total_calls < y.2.total_calls
    · have hstep : pickBest x (y :: ys) = pickBest y ys := by
        simp [pickBest, hxy]
      obtain ⟨l1, l2, hdec, hstrict, hmax⟩ := ih y
      refine ⟨x :: l1, l2, ?_, ?_, ?_⟩
      · rw [hstep]
        rw [List.cons_append]
        rw [← hdec]
      · intro z hz
        rw [hstep]
        rcases List.mem_cons.mp hz with h1 | h2
        · subst h1
          calc z.2.total_calls < y.2.total_calls := hxy
            _ ≤ (pickBest y ys).2.total_calls := hmax y (List.mem_cons_self _ _)
        · exact hstrict z h2
      · intro z hz
        rw [hstep]
        rcases List.mem_cons.mp hz with h1 | h2
        · subst h1
          exact le_of_lt (lt_of_lt_of_le hxy (hmax y (List.mem_cons_self _ _)))
        · exact hmax z h2
    · have hstep : pickBest x (y :: ys) = pickBest x ys := by
        simp [pickBest, hxy]
      obtain ⟨l1, l2, hdec, hstrict, hmax⟩ := ih x
      cases l1 with
      | nil =>
        have hx : pickBest x ys = x := by
          have := hdec
          simp only [List.nil_append] at this
          exact (List.cons.injEq _ _ _ _ ▸ this).1.symm
        refine ⟨[], y :: ys, ?_, by simp, ?_⟩
        · rw [hstep, hx]
          simp
        · intro z hz
          rw [hstep, hx]
          rcases List.mem_cons.mp hz with h1 | h2
          · subst h1; exact le_refl _
          · rcases List.mem_cons.mp h2 with h3 | h4
            · subst h3
              exact le_of_not_lt hxy
            · have := hmax z (List.mem_cons_of_mem _ h4)
              rwa [hx] at this
      | cons a l1' =>
        have ha : a = x ∧ ys = l1' ++ pickBest x ys :: l2 := by
          have := hdec
          simp only [List.cons_append] at this
          exact ⟨((List.cons.injEq _ _ _ _ ▸ this).1).symm,
            (List.cons.injEq _ _ _ _ ▸ this).2⟩
        refine ⟨x :: y :: l1', l2, ?_, ?_, ?_⟩
        · rw [hstep]
          simp only [List.cons_append]
          rw [← ha.2]
        · intro z hz
          rw [hstep]
          have hxlt : x.2.total_calls < (pickBest x ys).2.total_calls := by
            have := hstrict a (List.mem_cons_self _ _)
            rwa [ha.1] at this
          rcases List.mem_cons.mp hz with h1 | h2
          · subst h1; exact hxlt
          · rcases List.mem_cons.mp h2 with h3 | h4
            · subst h3
              exact lt_of_le_of_lt (le_of_not_lt hxy) hxlt
            · exact hstrict z (List.mem_cons_of_mem _ h4)
        · intro z hz
          rw [hstep]
          rcases List.mem_cons.mp hz with h1 | h2
          · subst h1
            exact hmax z (List.mem_cons_self _ _)
          · rcases List.mem_cons.mp h2 with h3 | h4
            · subst h3
              exact le_trans (le_of_not_lt hxy) (hmax x (List.mem_cons_self _ _))
            · exact hmax z (List.mem_cons_of_mem _ h4)

lemma sumCalls_zero_empty (stats : List (String × AgentStats))
    (hz : sumCalls stats = 0) (hp : ∀ p ∈ stats, 1 ≤ p.2.total_calls) : stats = [] := by
  cases stats with
  | nil => rfl
  | cons p rest =>
    exfalso
    have h1 := hp p (List.mem_cons_self _ _)
    simp only [sumCalls, List.map_cons, List.sum_cons] at hz
    omega


lemma get_set_session {V : Type} (svc : SessionService V) (u sid : String)
    (st s' : PySession V) (h : get_session svc u sid = some st) :
    get_session (set_session svc u sid s') u sid = some s' := by
  unfold get_session set_session at *
  induction svc with
  | nil => simp at h
  | cons kv rest ih =>
    obtain ⟨k, w⟩ := kv
    by_cases hk : k = (u, sid)
    · subst hk
      simp [List.lookup_cons]
    · have hne : ((u, sid) == k) = false :=
        beq_eq_false_iff_ne.mpr (fun hh => hk hh.symm)
      simp only [List.map_cons, if_neg hk, List.lookup_cons, hne] at h ⊢
      exact ih h

lemma dictUpdate_single {V : Type} (d : List (String × V)) (K : String) (v : V) :
    dictUpdate d [(K, v)] =
      if (d.lookup K).isSome then d.map (fun p => if p.1 = K then (p.1, v) else p)
      else d ++ [(K, v)] := rfl

lemma lookup_map_replace_self {V : Type} (d : List (String × V)) (K : String) (v : V)
    (h : (d.lookup K).isSome) :
    (d.map (fun p => if p.1 = K then (p.1, v) else p)).lookup K = some v := by
  induction d with
  | nil => simp at h
  | cons kv rest ih =>
    obtain ⟨k, w⟩ := kv
    by_cases hk : k = K
    · subst hk
      simp [List.lookup_cons]
    · have hne : (K == k) = false := beq_eq_false_iff_ne.mpr (fun hh => hk hh.symm)
      simp only [List.lookup_cons, hne] at h
      simp only [List.map_cons, if_neg hk, List.lookup_cons, hne]
      exact ih h

lemma lookup_map_replace_ne {V : Type} (d : List (String × V)) (K k : String) (v : V)
    (h : k ≠ K) :
    (d.map (fun p => if p.1 = K then (p.1, v) else p)).lookup k = d.lookup k := by
  induction d with
  | nil => simp
  | cons kv rest ih =>
    obtain ⟨k', w⟩ := kv
    by_cases hk : k' = K
    · subst hk
      have hne : (k == k') = false := beq_eq_false_iff_ne.mpr h
      simp [List.lookup_cons, hne, ih]
    · simp only [List.map_cons, if_neg hk, List.lookup_cons]
      by_cases hkk : k = k'
      · subst hkk
        simp
      · have hne : (k == k') = false := beq_eq_false_iff_ne.mpr hkk
        simp only [hne]
        exact ih

lemma lookup_dictUpdate_single_self {V : Type} (d : List (String × V)) (K : String) (v : V) :
    (dictUpdate d [(K, v)]).lookup K = some v := by
  rw [dictUpdate_single]
  by_cases h : (d.lookup K).isSome
  · rw [if_pos h]
    exact lookup_map_replace_self d K v h
  · rw [if_neg h]
    rw [List.lookup_append]
    have hnone : d.lookup K = none := Option.not_isSome_iff_eq_none.mp h
    simp [hnone]

lemma lookup_dictUpdate_single_ne {V : Type} (d : List (String × V)) (K k : String) (v : V)
    (h : k ≠ K) : (dictUpdate d [(K, v)]).lookup k = d.lookup k := by
  rw [dictUpdate_single]
  by_cases hs : (d.lookup K).isSome
  · rw [if_pos hs]
    exact lookup_map_replace_ne d K k v h
  · rw [if_neg hs]
    rw [List.lookup_append]
    simp [List.lookup_cons, beq_eq_false_iff_ne.mpr h]



lemma get_session_state_eq {V : Type} (svc : SessionService V) (u sid : String)
    (s : PySession V) (h : get_session svc u sid = some s) :
    get_session_state svc u sid = s.state := by
  unfold get_session_state
  rw [h]

lemma processEvent_flow (st : TrackState) (e : Event) :
    (processEvent st e).1.execution_flow =
      st.execution_flow ++
        [FlowEntry.event e.author e.invocation_id e.branch e.timestamp e.id] ++
        transferEntries e := by
  unfold processEvent
  rw [captureFinal_flow, trackTransfer_eq]
  simp only [trackLlmCall_flow, trackAgents_flow]

/-- C1 counterexample: an event whose parts carry neither text nor a
function-response yields empty extracted text, yet the tracker counts it as an
LLM call for its stage, so "counts iff extracted text is non-empty" is false. -/
theorem spec_C1_counterexample :
    Event.extract { author := "A", content := some ⟨some [{}]⟩ } = "" ∧
    ("A" : String) ≠ "user" ∧
    (run_agent_with_tracking
      { events := [{ author := "A", content := some ⟨some [{}]⟩ }], error := none
      }).total_llm_calls = 1 ∧
    ((run_agent_with_tracking
      { events := [{ author := "A", content := some ⟨some [{}]⟩ }], error := none
      }).llm_call_stats.lookup "A").map (fun v => v.total_calls) = some 1 :=
  ⟨rfl, by decide, rfl, rfl⟩

/-- C1 (amended): an event is counted as one LLM call for its stage iff it
carries a content payload with a non-empty parts list and its author is not
"user" (non-empty extracted text is sufficient but not necessary); each counted
event bumps the stage's total_calls by one, its total_content_length by the
extracted text's length, its function_calls by one exactly when the event
carries function calls, sets last_call to the event timestamp, and first_call
is the timestamp of the stage's first counted event; non-counted events leave
the statistics untouched. -/
theorem spec_C1_amended (st : TrackState) (e : Event) :
    (e.extract ≠ "" → e.author ≠ "user" → e.countsAsLlmCall = true) ∧
    (e.countsAsLlmCall = true →
      (processEvent st e).1.total_llm_calls = st.total_llm_calls + 1 ∧
      (processEvent st e).1.llm_calls =
        st.llm_calls ++ [llmCallInfoOf (st.total_llm_calls + 1) e] ∧
      (processEvent st e).1.llm_call_stats.lookup e.author =
        some (bumpedStats
          ((st.llm_call_stats.lookup e.author).getD (freshStats e.timestamp))
          e.extract.length (!e.function_calls.isEmpty) e.timestamp) ∧
      (∀ k, k ≠ e.author →
        (processEvent st e).1.llm_call_stats.lookup k = st.llm_call_stats.lookup k)) ∧
    (e.countsAsLlmCall = false →
      (processEvent st e).1.total_llm_calls = st.total_llm_calls ∧
      (processEvent st e).1.llm_call_stats = st.llm_call_stats ∧
      (processEvent st e).1.llm_calls = st.llm_calls) := by
  refine ⟨?_, ?_, ?_⟩
  · intro hx hu
    have ht := extract_ne_empty_truthy e hx
    simp [Event.countsAsLlmCall, ht.1, ht.2, beq_eq_false_iff_ne.mpr hu]
  · intro hc
    have hB := trackLlmCall_pos (trackAgents st e) e hc
    refine ⟨?_, ?_, ?_, ?_⟩
    · rw [processEvent_total, hB]
      rfl
    · rw [processEvent_calls, hB]
      rfl
    · rw [processEvent_stats, hB]
      exact lookup_update_self st.llm_call_stats e.author e.extract.length
        (!e.function_calls.isEmpty) e.timestamp
    · intro k hk
      rw [processEvent_stats, hB]
      exact lookup_update_ne st.llm_call_stats e.author k e.extract.length
        (!e.function_calls.isEmpty) e.timestamp hk
  · intro hc
    have hB := trackLlmCall_neg (trackAgents st e) e hc
    refine ⟨?_, ?_, ?_⟩
    · rw [processEvent_total, hB]
      rfl
    · rw [processEvent_stats, hB]
      rfl
    · rw [processEvent_calls, hB]
      rfl

/-- C1 witness: the amended step characterization evaluated on a concrete
counted event. -/
theorem spec_C1_amended_witness :
    (processEvent initState
      { author := "A", timestamp := 7,
        content := some ⟨some [{ text := some "hi" }]⟩,
        function_calls := ["tool"] }).1.total_llm_calls = 1 ∧
    (processEvent initState
      { author := "A", timestamp := 7,
        content := some ⟨some [{ text := some "hi" }]⟩,
        function_calls := ["tool"] }).1.llm_call_stats.lookup "A" =
      some { total_calls := 1, function_calls := 1, total_content_length := 2,
             first_call := 7, last_call := 7 } := by
  have h := (spec_C1_amended initState
    { author := "A", timestamp := 7,
      content := some ⟨some [{ text := some "hi" }]⟩,
      function_calls := ["tool"] }).2.1 (by rfl)
  exact ⟨h.1, by rw [h.2.2.1]; rfl⟩

/-- C2: per-event text extraction follows the precedence "first direct text
verbatim, else first function-result unwrapped through output/result/raw and
coerced (canonical JSON for structured values, str otherwise), else empty"; in
particular a payload with result field containing the mapping score 5 extracts
to its canonical serialization, a non-empty string. -/
theorem spec_C2_extraction :
    (∀ parts : Option (List Part),
      _extract_text_from_event_parts parts = extractTextSpec parts) ∧
    _extract_text_from_event_parts
      (some [{ function_response := some ⟨some (JsonValue.obj
        [("result", JsonValue.obj [("score", JsonValue.num 5)])])⟩ }]) =
      jsonDumps (JsonValue.obj [("score", JsonValue.num 5)]) ∧
    jsonDumps (JsonValue.obj [("score", JsonValue.num 5)]) = "\x7b\x22score\x22: 5\x7d" ∧
    ("\x7b\x22score\x22: 5\x7d" : String) ≠ "" :=
  ⟨extract_eq_spec, rfl, rfl, by decide⟩

/-- C3 counterexample: a terminal event whose extracted text is non-empty but
whitespace-only halts the loop, yet the returned response is the fallback
message, not the stripped (empty) text. -/
theorem spec_C3_counterexample :
    Event.extract
      { author := "A", content := some ⟨some [{ text := some " " }]⟩,
        is_final_response := true } = " " ∧
    (" " : String) ≠ "" ∧
    pyStrip " " = "" ∧
    (run_agent_with_tracking
      { events :=
          [{ author := "A", content := some ⟨some [{ text := some " " }]⟩,
             is_final_response := true }],
        error := none }).response = fallbackMsg ∧
    fallbackMsg ≠ pyStrip " " :=
  ⟨rfl, by decide, rfl, rfl, by decide⟩

/-- C3 (amended): the loop halts at the first terminal event with non-empty
extracted text (later events are never consumed); the stripped text becomes the
response when stripping leaves it non-empty, otherwise the fallback message is
returned; a stream exhausted without such an event (including the empty one)
yields the fallback, and the empty stream yields zero calls and no stages. -/
theorem spec_C3_amended (s : EventStream) (h : s.error = none) :
    (∀ l1 e l2, s.events = l1 ++ e :: l2 →
      (∀ x ∈ l1, ¬(x.is_final_response = true ∧ x.extract ≠ "")) →
      e.is_final_response = true → e.extract ≠ "" →
      run_agent_with_tracking s =
        run_agent_with_tracking { events := l1 ++ [e], error := none } ∧
      (run_agent_with_tracking s).response =
        (if pyStrip e.extract = "" then fallbackMsg else pyStrip e.extract)) ∧
    ((∀ x ∈ s.events, ¬(x.is_final_response = true ∧ x.extract ≠ "")) →
      (run_agent_with_tracking s).response = fallbackMsg) ∧
    (s.events = [] →
      (run_agent_with_tracking s).response = fallbackMsg ∧
      (run_agent_with_tracking s).total_llm_calls = 0 ∧
      (run_agent_with_tracking s).agents_called = []) := by
  refine ⟨?_, ?_, ?_⟩
  · intro l1 e l2 hsv hnb hf hx
    have he : e.breakCond = true := (breakCond_iff e).mpr ⟨hf, hx⟩
    have hl1 : ∀ x ∈ l1, x.breakCond = false := by
      intro x hxm
      cases hb : x.breakCond with
      | false => rfl
      | true => exact absurd ((breakCond_iff x).mp hb) (hnb x hxm)
    have hmem : ∃ x ∈ s.events, x.breakCond = true := by
      refine ⟨e, ?_, he⟩
      rw [hsv]
      simp
    have h1 : run_agent_with_tracking s = normalResult (runLoop initState s.events).1 :=
      run_eq_normal s (Or.inr hmem)
    have h2 : runLoop initState s.events = runLoop initState (l1 ++ [e]) := by
      rw [hsv]
      exact runLoop_prefix_break initState l1 e l2 hl1 he
    have h3 : run_agent_with_tracking { events := l1 ++ [e], error := none } =
        normalResult (runLoop initState (l1 ++ [e])).1 :=
      run_eq_normal _ (Or.inl rfl)
    have hfin : (runLoop initState (l1 ++ [e])).1.final_response = pyStrip e.extract :=
      runLoop_break_final initState l1 e hl1 he
    constructor
    · rw [h1, h2, h3]
    · rw [h1, h2]
      show (normalResult (runLoop initState (l1 ++ [e])).1).response = _
      unfold normalResult
      rw [hfin]
  · intro hall
    have hbc : ∀ x ∈ s.events, x.breakCond = false := by
      intro x hxm
      cases hb : x.breakCond with
      | false => rfl
      | true => exact absurd ((breakCond_iff x).mp hb) (hall x hxm)
    rw [run_eq_normal s (Or.inl h)]
    show (normalResult (runLoop initState s.events).1).response = _
    unfold normalResult
    rw [runLoop_final_nobreak initState s.events hbc]
    rfl
  · intro hnil
    rw [run_eq_normal s (Or.inl h), hnil]
    exact ⟨rfl, rfl, rfl⟩

/-- C3 witness: a single terminal event with text "done" yields response
"done". -/
theorem spec_C3_amended_witness :
    (run_agent_with_tracking
      { events :=
          [{ author := "A", content := some ⟨some [{ text := some "done" }]⟩,
             is_final_response := true }],
        error := none }).response = "done" := by
  have h := (spec_C3_amended
    { events :=
        [{ author := "A", content := some ⟨some [{ text := some "done" }]⟩,
           is_final_response := true }],
      error := none } rfl).1
    []
    { author := "A", content := some ⟨some [{ text := some "done" }]⟩,
      is_final_response := true }
    [] rfl (by simp) rfl (by decide)
  rw [h.2]
  decide

/-- C4: when the event stream raises before the loop breaks, the tracker
returns the fixed error report: error string embedding the failure text, zero
total calls, empty agents/flow/calls/statistics, and no most-active agent. -/
theorem spec_C4_error_report (s : EventStream) (msg : String) (he : s.error = some msg)
    (hb : ∀ x ∈ s.events, ¬(x.is_final_response = true ∧ x.extract ≠ "")) :
    (run_agent_with_tracking s).response =
      "An error occurred: " ++ msg ++ ". Please try again." ∧
    (run_agent_with_tracking s).total_llm_calls = 0 ∧
    (run_agent_with_tracking s).agents_called = [] ∧
    (run_agent_with_tracking s).execution_flow = [] ∧
    (run_agent_with_tracking s).llm_calls = [] ∧
    (run_agent_with_tracking s).llm_call_stats = [] ∧
    (run_agent_with_tracking s).summary.most_active_agent = none := by
  have hbc : ∀ x ∈ s.events, x.breakCond = false := by
    intro x hxm
    cases hbx : x.breakCond with
    | false => rfl
    | true => exact absurd ((breakCond_iff x).mp hbx) (hb x hxm)
  rw [run_eq_error s msg he hbc]
  exact ⟨rfl, rfl, rfl, rfl, rfl, rfl, rfl⟩

/-- C4 witness: a stream that immediately raises "boom". -/
theorem spec_C4_error_report_witness :
    (run_agent_with_tracking { events := [], error := some "boom" }).response =
      "An error occurred: boom. Please try again." ∧
    (run_agent_with_tracking { events := [], error := some "boom" }).total_llm_calls = 0 := by
  have h := spec_C4_error_report { events := [], error := some "boom" } "boom" rfl (by simp)
  exact ⟨h.1, h.2.1⟩

/-- C5: updating an existing session's state with a single-key mapping and then
reading the state returns that key mapped to the new value, and every other key
reads exactly as before. -/
theorem spec_C5_round_trip {V : Type} (svc : SessionService V) (u sid K : String)
    (v : V) (st : PySession V) (h : get_session svc u sid = some st) :
    (get_session_state (update_session_state svc u sid [(K, v)]) u sid).lookup K =
      some v ∧
    (∀ k, k ≠ K →
      (get_session_state (update_session_state svc u sid [(K, v)]) u sid).lookup k =
        st.state.lookup k) := by
  have hupd : update_session_state svc u sid [(K, v)] =
      set_session svc u sid ⟨dictUpdate st.state [(K, v)]⟩ := by
    unfold update_session_state
    rw [h]
  have hget : get_session (set_session svc u sid ⟨dictUpdate st.state [(K, v)]⟩) u sid =
      some ⟨dictUpdate st.state [(K, v)]⟩ :=
    get_set_session svc u sid st _ h
  have hstate : get_session_state (update_session_state svc u sid [(K, v)]) u sid =
      dictUpdate st.state [(K, v)] := by
    rw [hupd]
    exact get_session_state_eq _ u sid _ hget
  constructor
  · rw [hstate]
    exact lookup_dictUpdate_single_self st.state K v
  · intro k hk
    rw [hstate]
    exact lookup_dictUpdate_single_ne st.state K k v hk

/-- C5 witness: the round trip on a concrete one-session store. -/
theorem spec_C5_round_trip_witness :
    (get_session_state (update_session_state
      [(("u", "s"), (⟨[("a", JsonValue.num 1)]⟩ : PySession JsonValue))]
      "u" "s" [("k", JsonValue.num 2)]) "u" "s").lookup "k" = some (JsonValue.num 2) :=
  (spec_C5_round_trip
    [(("u", "s"), (⟨[("a", JsonValue.num 1)]⟩ : PySession JsonValue))]
    "u" "s" "k" (JsonValue.num 2) ⟨[("a", JsonValue.num 1)]⟩ rfl).1

/-- C6: current_step is computed by the fixed descending precedence over the
five artifact keys, and a store holding exactly generated_ideas and
content_draft yields "draft_completed". -/
theorem spec_C6_current_step :
    (∀ (V : Type) (state : List (String × V)),
      (_determine_current_step state = "completed" ↔
        pyContains state "seo_optimized_content" = true) ∧
      (_determine_current_step state = "feedback_received" ↔
        (pyContains state "seo_optimized_content" = false ∧
         pyContains state "expert_feedback" = true)) ∧
      (_determine_current_step state = "draft_completed" ↔
        (pyContains state "seo_optimized_content" = false ∧
         pyContains state "expert_feedback" = false ∧
         pyContains state "content_draft" = true)) ∧
      (_determine_current_step state = "outline_ready" ↔
        (pyContains state "seo_optimized_content" = false ∧
         pyContains state "expert_feedback" = false ∧
         pyContains state "content_draft" = false ∧
         pyContains state "content_outline" = true)) ∧
      (_determine_current_step state = "ideas_generated" ↔
        (pyContains state "seo_optimized_content" = false ∧
         pyContains state "expert_feedback" = false ∧
         pyContains state "content_draft" = false ∧
         pyContains state "content_outline" = false ∧
         pyContains state "generated_ideas" = true)) ∧
      (_determine_current_step state = "starting" ↔
        (pyContains state "seo_optimized_content" = false ∧
         pyContains state "expert_feedback" = false ∧
         pyContains state "content_draft" = false ∧
         pyContains state "content_outline" = false ∧
         pyContains state "generated_ideas" = false))) ∧
    _determine_current_step [("generated_ideas", JsonValue.null),
      ("content_draft", JsonValue.null)] = "draft_completed" := by
  refine ⟨fun V state => ?_, rfl⟩
  cases h1 : pyContains state "seo_optimized_content" <;>
    cases h2 : pyContains state "expert_feedback" <;>
      cases h3 : pyContains state "content_draft" <;>
        cases h4 : pyContains state "content_outline" <;>
          cases h5 : pyContains state "generated_ideas" <;>
            simp [_determine_current_step, h1, h2, h3, h4, h5]

/-- C7: on a non-error return, most_active_agent is the first stage (in
insertion order of the statistics mapping) attaining the maximal total_calls,
and it is null exactly when no calls were counted. -/
theorem spec_C7_most_active (s : EventStream)
    (h : s.error = none ∨ ∃ e ∈ s.events, e.breakCond = true) :
    ((run_agent_with_tracking s).total_llm_calls = 0 →
      (run_agent_with_tracking s).summary.most_active_agent = none) ∧
    ((run_agent_with_tracking s).llm_call_stats ≠ [] →
      ∃ l1 p l2,
        (run_agent_with_tracking s).llm_call_stats = l1 ++ p :: l2 ∧
        (run_agent_with_tracking s).summary.most_active_agent = some p.1 ∧
        (∀ q ∈ l1, q.2.total_calls < p.2.total_calls) ∧
        (∀ q ∈ (run_agent_with_tracking s).llm_call_stats,
          q.2.total_calls ≤ p.2.total_calls)) := by
  rw [run_eq_normal s h]
  have hinv : TrackInv (runLoop initState s.events).1 :=
    trackInv_runLoop initState s.events trackInv_init
  constructor
  · intro hz
    have hsum : sumCalls (runLoop initState s.events).1.llm_call_stats = 0 := by
      rw [← hinv.sum_eq]
      exact hz
    have hempty : (runLoop initState s.events).1.llm_call_stats = [] :=
      sumCalls_zero_empty _ hsum hinv.pos
    show mostActiveAgent (runLoop initState s.events).1.llm_call_stats = none
    rw [hempty]
    rfl
  · intro hne
    cases hstats : (runLoop initState s.events).1.llm_call_stats with
    | nil => exact absurd hstats hne
    | cons x xs =>
      obtain ⟨l1, l2, hdec, hstrict, hmax⟩ := pickBest_spec xs x
      refine ⟨l1, pickBest x xs, l2, ?_, ?_, hstrict, ?_⟩
      · show (runLoop initState s.events).1.llm_call_stats = _
        rw [hstats, hdec]
      · show mostActiveAgent (runLoop initState s.events).1.llm_call_stats = _
        rw [hstats, mostActiveAgent_cons]
      · intro q hq
        apply hmax
        show q ∈ x :: xs
        rw [← hstats]
        exact hq

/-- C7 witness: the empty stream has zero calls and a null most-active
agent. -/
theorem spec_C7_most_active_witness :
    (run_agent_with_tracking { events := [], error := none
      }).summary.most_active_agent = none :=
  (spec_C7_most_active { events := [], error := none } (Or.inl rfl)).1 rfl

/-- C8: get_session_state is total; it returns the session's state when one is
found, and the empty mapping when the session is absent or the underlying
service call fails. -/
theorem spec_C8_get_state_total :
    (∀ (V : Type) (svc : SessionService V) (u sid : String),
      get_session_state svc u sid =
        get_session_state_outcome (Except.ok (get_session svc u sid))) ∧
    (∀ (V : Type) (msg : String),
      get_session_state_outcome (V := V) (Except.error msg) = []) ∧
    (∀ (V : Type), get_session_state_outcome (V := V) (Except.ok none) = []) ∧
    (∀ (V : Type) (s : PySession V),
      get_session_state_outcome (Except.ok (some s)) = s.state) := by
  refine ⟨?_, fun V msg => rfl, fun V => rfl, fun V s => rfl⟩
  intro V svc u sid
  unfold get_session_state get_session_state_outcome
  cases hg : get_session svc u sid <;> simp [hg]

/-- C9: a truthy transfer directive appends exactly one synthetic transfer
entry, recording source, destination and timestamp, immediately after the
originating event's flow entry, and the directive itself changes neither the
call list nor any call count. -/
theorem spec_C9_transfer_entry (st : TrackState) (e : Event) (t : String)
    (ha : e.actions = some { transfer_to_agent := some t }) (ht : t ≠ "") :
    (processEvent st e).1.execution_flow =
      st.execution_flow ++
        [FlowEntry.event e.author e.invocation_id e.branch e.timestamp e.id,
         FlowEntry.transfer e.author t e.timestamp] ∧
    (processEvent st e).1.total_llm_calls =
      (processEvent st { e with actions := none }).1.total_llm_calls ∧
    (processEvent st e).1.llm_call_stats =
      (processEvent st { e with actions := none }).1.llm_call_stats ∧
    (processEvent st e).1.llm_calls =
      (processEvent st { e with actions := none }).1.llm_calls := by
  have htr : transferEntries e = [FlowEntry.transfer e.author t e.timestamp] := by
    unfold transferEntries
    rw [ha]
    simp [ht]
  refine ⟨?_, ?_, ?_, ?_⟩
  · rw [processEvent_flow, htr]
    simp
  · rw [processEvent_total, processEvent_total]
    rfl
  · rw [processEvent_stats, processEvent_stats]
    rfl
  · rw [processEvent_calls, processEvent_calls]
    rfl

/-- C9 witness: a concrete orchestrator-to-draft transfer produces the two flow
entries in order. -/
theorem spec_C9_transfer_entry_witness :
    (processEvent initState
      { author := "OrchestratorAgent", timestamp := 3,
        actions := some { transfer_to_agent := some "DraftAgent" } }).1.execution_flow =
      [FlowEntry.event "OrchestratorAgent" "" none 3 "",
       FlowEntry.transfer "OrchestratorAgent" "DraftAgent" 3] := by
  have h := (spec_C9_transfer_entry initState
    { author := "OrchestratorAgent", timestamp := 3,
      actions := some { transfer_to_agent := some "DraftAgent" } }
    "DraftAgent" rfl (by decide)).1
  rw [h]
  rfl

/-- C10: on a non-error return, total_llm_calls equals the length of llm_calls
and the sum of the per-stage total_calls, the call_number fields are exactly 1
through the total in order, and every statistics key appears among the invoked
stage names. -/
theorem spec_C10_invariants (s : EventStream)
    (h : s.error = none ∨ ∃ e ∈ s.events, e.breakCond = true) :
    (run_agent_with_tracking s).total_llm_calls =
      (run_agent_with_tracking s).llm_calls.length ∧
    (run_agent_with_tracking s).total_llm_calls =
      sumCalls (run_agent_with_tracking s).llm_call_stats ∧
    (run_agent_with_tracking s).llm_calls.map (fun c => c.call_number) =
      List.range' 1 (run_agent_with_tracking s).total_llm_calls ∧
    (∀ p ∈ (run_agent_with_tracking s).llm_call_stats,
      p.1 ∈ (run_agent_with_tracking s).agents_called.map (fun a => a.agent_name)) := by
  rw [run_eq_normal s h]
  have hinv : TrackInv (runLoop initState s.events).1 :=
    trackInv_runLoop initState s.events trackInv_init
  exact ⟨hinv.len_eq, hinv.sum_eq, hinv.nums, hinv.keys_sub⟩

/-- C10 witness: the invariants evaluated on a concrete two-event stream. -/
theorem spec_C10_invariants_witness :
    (run_agent_with_tracking
      { events := [{ author := "A", content := some ⟨some [{ text := some "x" }]⟩ },
          { author := "B", content := some ⟨some [{ text := some "y" }]⟩ }],
        error := none }).total_llm_calls =
      (run_agent_with_tracking
        { events := [{ author := "A", content := some ⟨some [{ text := some "x" }]⟩ },
            { author := "B", content := some ⟨some [{ text := some "y" }]⟩ }],
          error := none }).llm_calls.length :=
  (spec_C10_invariants
    { events := [{ author := "A", content := some ⟨some [{ text := some "x" }]⟩ },
        { author := "B", content := some ⟨some [{ text := some "y" }]⟩ }],
      error := none } (Or.inl rfl)).1


end GoogleAdkPoc
